import Mathlib

/-!
Verification of the deviceoutput-switcher extension core.

Shallow embedding of the repository's logic:
* `StorageManager` embeds src/src/content/storage-manager.js: domain
  normalization (`normalizeDomain`), subdomain matching (`isSubdomain`),
  whitelist mutation (`addDomainToWhitelist`) and the whitelist decision
  (`isCurrentDomainWhitelisted`).  JavaScript strings are modelled as
  `List Char`; `String.prototype.toLowerCase` is modelled by `Char.toLower`
  on each character (ASCII case folding, which is all the domain grammar
  ever accepts); `split('.')` / `join('.')` are modelled by `splitOnDot` /
  `joinDot`; the two validation regexes are modelled structurally, label by
  label, which matches the regex language exactly because the label
  character classes exclude the dot separator.
* `CookieManager` embeds src/src/content/cookie-manager.js.  The
  asynchronous messaging callback is modelled by making the outcome of one
  `chrome.runtime.sendMessage` exchange (`ChannelOutcome`) an explicit
  argument; `setDeviceType`, which performs two sequential exchanges, takes
  two outcomes and additionally returns the list of messages it dispatched.
* `Background` embeds the service worker (the cookie access proxy): its
  message listener becomes a pure function from the request, the sender and
  an abstract URL parser / cookie-store API to the response it sends plus
  the trace of cookie-store operations it performs.
-/

namespace StorageManager

/-- JavaScript string contents, character by character. -/
abbrev JsStr := List Char

/-- `s.split('.')` for a JavaScript string: splitting on a one-character
separator, `''.split('.') = ['']` included. -/
def splitOnDot : JsStr → List JsStr
  | [] => [[]]
  | c :: cs =>
    match splitOnDot cs with
    | [] => [[]]
    | p :: ps => if c = '.' then [] :: p :: ps else (c :: p) :: ps

/-- `parts.join('.')`. -/
def joinDot : List JsStr → JsStr
  | [] => []
  | [p] => p
  | p :: q :: ps => p ++ '.' :: joinDot (q :: ps)

theorem splitOnDot_ne_nil (s : JsStr) : splitOnDot s ≠ [] := by
  cases s with
  | nil => simp [splitOnDot]
  | cons c cs =>
    simp only [splitOnDot]
    cases splitOnDot cs with
    | nil => simp
    | cons p ps =>
      by_cases h : c = '.'
      · simp [h]
      · simp [h]

theorem joinDot_cons (p : JsStr) (ps : List JsStr) (h : ps ≠ []) :
    joinDot (p :: ps) = p ++ '.' :: joinDot ps := by
  cases ps with
  | nil => exact absurd rfl h
  | cons q qs => rfl

theorem joinDot_splitOnDot (s : JsStr) : joinDot (splitOnDot s) = s := by
  induction s with
  | nil => rfl
  | cons c cs ih =>
    cases hsp : splitOnDot cs with
    | nil => exact absurd hsp (splitOnDot_ne_nil cs)
    | cons p ps =>
      rw [hsp] at ih
      by_cases h : c = '.'
      · subst h
        simp only [splitOnDot, hsp, if_pos rfl, joinDot, List.nil_append]
        rw [ih]
      · simp only [splitOnDot, hsp, if_neg h]
        cases ps with
        | nil =>
          simp only [joinDot] at ih ⊢
          rw [ih]
        | cons q qs =>
          simp only [joinDot, List.cons_append] at ih ⊢
          rw [ih]

theorem not_dot_mem_of_mem_splitOnDot (s : JsStr) :
    ∀ p ∈ splitOnDot s, '.' ∉ p := by
  induction s with
  | nil =>
    intro p hp
    simp [splitOnDot] at hp
    simp [hp]
  | cons c cs ih =>
    intro p hp
    cases hsp : splitOnDot cs with
    | nil => exact absurd hsp (splitOnDot_ne_nil cs)
    | cons q qs =>
      rw [hsp] at ih
      simp only [splitOnDot, hsp] at hp
      by_cases h : c = '.'
      · rw [if_pos h] at hp
        rcases List.mem_cons.mp hp with hp | hp
        · simp [hp]
        · exact ih p hp
      · rw [if_neg h] at hp
        rcases List.mem_cons.mp hp with hp | hp
        · subst hp
          intro hmem
          rcases List.mem_cons.mp hmem with hc | hc
          · exact h hc.symm
          · exact ih q (by simp) hc
        · exact ih p (by simp [hp])

theorem splitOnDot_of_not_mem (l : JsStr) (h : '.' ∉ l) : splitOnDot l = [l] := by
  induction l with
  | nil => rfl
  | cons c cs ih =>
    have hc : c ≠ '.' := fun hc => h (by simp [hc])
    have hcs : '.' ∉ cs := fun hm => h (by simp [hm])
    simp only [splitOnDot, ih hcs, if_neg hc]

theorem splitOnDot_append_dot (p t : JsStr) (h : '.' ∉ p) :
    splitOnDot (p ++ '.' :: t) = p :: splitOnDot t := by
  induction p with
  | nil =>
    simp only [List.nil_append, splitOnDot]
    cases hsp : splitOnDot t with
    | nil => exact absurd hsp (splitOnDot_ne_nil t)
    | cons q qs => simp
  | cons c cs ih =>
    have hc : c ≠ '.' := fun hc => h (by simp [hc])
    have hcs : '.' ∉ cs := fun hm => h (by simp [hm])
    have := ih hcs
    simp only [List.cons_append, splitOnDot, List.append_eq, this, if_neg hc]

theorem splitOnDot_joinDot (ps : List JsStr) (h1 : ps ≠ [])
    (h2 : ∀ p ∈ ps, '.' ∉ p) : splitOnDot (joinDot ps) = ps := by
  induction ps with
  | nil => exact absurd rfl h1
  | cons p qs ih =>
    cases qs with
    | nil => exact splitOnDot_of_not_mem p (h2 p (by simp))
    | cons q rs =>
      rw [joinDot_cons _ _ (by simp)]
      rw [splitOnDot_append_dot _ _ (h2 p (by simp))]
      rw [ih (by simp) (fun r hr => h2 r (by simp [hr]))]

/-- `.toLowerCase()`: per-character ASCII case folding (`Char.toLower` is
exactly the fold the source relies on for domain characters). -/
def jsToLowerCase (s : JsStr) : JsStr := s.map Char.toLower

/-- `.replace(/^https?:\/\//, '')`: the regex matches `http://` or
`https://` at the start of the string, nothing else. -/
def stripProtocol (s : JsStr) : JsStr :=
  if ("https://".data).isPrefixOf s then s.drop 8
  else if ("http://".data).isPrefixOf s then s.drop 7
  else s

/-- `.replace(/^www\./, '')`. -/
def stripWww (s : JsStr) : JsStr :=
  if ("www.".data).isPrefixOf s then s.drop 4 else s

/-- `.replace(/\/$/, '')`. -/
def stripTrailingSlash (s : JsStr) : JsStr :=
  if s.getLast? = some '/' then s.dropLast else s

/-- The whitespace class of `String.prototype.trim` restricted to the ASCII
characters that can reach this code path. -/
def isJsWhitespace (c : Char) : Bool :=
  c = ' ' || c = '\t' || c = '\n' || c = '\r' || c = '\x0b' || c = '\x0c'

/-- `.trim()`. -/
def jsTrim (s : JsStr) : JsStr :=
  ((s.dropWhile isJsWhitespace).reverse.dropWhile isJsWhitespace).reverse

/-- The whole chained pipeline of `normalizeDomain` before validation:
`domain.toLowerCase().replace(/^https?:\/\//, '').replace(/^www\./, '')
.replace(/\/$/, '').trim()`. -/
def normalForm (domain : JsStr) : JsStr :=
  jsTrim (stripTrailingSlash (stripWww (stripProtocol (jsToLowerCase domain))))

/-- The character class `[a-z0-9]` under the `i` flag of the domain regex. -/
def isAsciiAlnum (c : Char) : Bool :=
  ('a' ≤ c && c ≤ 'z') || ('A' ≤ c && c ≤ 'Z') || ('0' ≤ c && c ≤ '9')

/-- The character class `[a-z0-9-]` under the `i` flag. -/
def isLabelChar (c : Char) : Bool := isAsciiAlnum c || c = '-'

/-- The character class of `/^[a-z0-9-]+$/` (no `i` flag on this regex). -/
def isLowerDigitDash (c : Char) : Bool :=
  ('a' ≤ c && c ≤ 'z') || ('0' ≤ c && c ≤ '9') || c = '-'

/-- `/^[a-z0-9-]+$/.test(s)`. -/
def singleLabelOk (s : JsStr) : Bool := !s.isEmpty && s.all isLowerDigitDash

/-- One non-final label of the dotted-domain regex:
`[a-z0-9](?:[a-z0-9-]{0,61}[a-z0-9])?` — first character alphanumeric, then
optionally up to 61 label characters followed by one alphanumeric. -/
def innerLabelOk : JsStr → Bool
  | [] => false
  | c :: rest =>
    isAsciiAlnum c &&
      (rest.isEmpty ||
        (decide (rest.length ≤ 62) && rest.dropLast.all isLabelChar &&
          (match rest.getLast? with
           | some d => isAsciiAlnum d
           | none => false)))

/-- The final label of the dotted-domain regex:
`[a-z0-9][a-z0-9-]{0,61}[a-z0-9]` — note the two alphanumerics are both
mandatory, so this label is at least two characters long. -/
def lastLabelOk : JsStr → Bool
  | [] => false
  | c :: rest =>
    isAsciiAlnum c && !rest.isEmpty && decide (rest.length ≤ 62) &&
      rest.dropLast.all isLabelChar &&
      (match rest.getLast? with
       | some d => isAsciiAlnum d
       | none => false)

/-- `domainPattern.test(s)` for
`/^(?:[a-z0-9](?:[a-z0-9-]{0,61}[a-z0-9])?\.)+[a-z0-9][a-z0-9-]{0,61}[a-z0-9]$/i`:
the string is a dot-separated sequence of two or more labels, every label
but the last matching `innerLabelOk` and the last matching `lastLabelOk`.
The label classes exclude `.`, so the regex decomposition coincides with
`splitOnDot`. -/
def domainPatternOk (s : JsStr) : Bool :=
  let parts := splitOnDot s
  decide (2 ≤ parts.length) && parts.dropLast.all innerLabelOk &&
    (match parts.getLast? with
     | some l => lastLabelOk l
     | none => false)

/-- The thrown message
`Invalid domain format: "${domain}". Please enter a valid domain (e.g., example.com)`. -/
def invalidDomainMessage (domain : JsStr) : JsStr :=
  ("Invalid domain format: \"").data ++ domain ++
    ("\". Please enter a valid domain (e.g., example.com)").data

/-- `normalizeDomain` of storage-manager.js: normalizes, accepts
`localhost`/single labels, validates dotted domains against the regex, and
otherwise throws (modelled as `Except.error` carrying the message). -/
def normalizeDomain (domain : JsStr) : Except JsStr JsStr :=
  let normalized := normalForm domain
  if normalized == ("localhost").data || singleLabelOk normalized then
    .ok normalized
  else if domainPatternOk normalized then
    .ok normalized
  else
    .error (invalidDomainMessage domain)

/-- `isSubdomain` of storage-manager.js: the candidate must have strictly
more dot-separated parts, and `subParts.slice(-domParts.length).join('.')`
must equal the parent string exactly. -/
def isSubdomain (subdomain domain : JsStr) : Bool :=
  let subParts := splitOnDot subdomain
  let domParts := splitOnDot domain
  if subParts.length ≤ domParts.length then false
  else joinDot (subParts.drop (subParts.length - domParts.length)) == domain

/-- `addDomainToWhitelist`: the stored whitelist is passed in explicitly (a
successful `chrome.storage` read), the returned list is both persisted and
returned to the caller. -/
def addDomainToWhitelist (whitelist : List JsStr) (domain : JsStr) :
    Except JsStr (List JsStr) :=
  match normalizeDomain domain with
  | .error e => .error e
  | .ok normalizedDomain =>
    if whitelist.contains normalizedDomain then .ok whitelist
    else .ok (whitelist ++ [normalizedDomain])

/-- `isCurrentDomainWhitelisted`: the stored whitelist and
`window.location.hostname` are passed in explicitly.  An empty whitelist
short-circuits to `true` before the hostname is normalized; otherwise a
normalization failure propagates (the promise rejects). -/
def isCurrentDomainWhitelisted (whitelist : List JsStr) (hostname : JsStr) :
    Except JsStr Bool :=
  if whitelist.length = 0 then .ok true
  else
    match normalizeDomain hostname with
    | .error e => .error e
    | .ok currentDomain =>
      .ok (whitelist.any fun domain =>
        currentDomain == domain || isSubdomain currentDomain domain)

/-- The acceptance condition of `normalizeDomain` on the already-normalized
string: `localhost`, the single-label regex, or the dotted-domain regex. -/
def validShape (s : JsStr) : Bool :=
  (s == ("localhost").data || singleLabelOk s) || domainPatternOk s

theorem normalizeDomain_eq_ite (d : JsStr) :
    normalizeDomain d =
      if validShape (normalForm d) then .ok (normalForm d)
      else .error (invalidDomainMessage d) := by
  unfold normalizeDomain validShape
  cases h1 : (normalForm d == ("localhost").data || singleLabelOk (normalForm d)) with
  | true => simp [h1]
  | false =>
    cases h2 : domainPatternOk (normalForm d) with
    | true => simp [h1, h2]
    | false => simp [h1, h2]

theorem toNat_ofNat_valid (n : Nat) (h : n.isValidChar) : (Char.ofNat n).toNat = n := by
  simp only [Char.ofNat, dif_pos h, Char.ofNatAux, Char.toNat]
  rfl

theorem char_le_iff_toNat_le {a b : Char} : a ≤ b ↔ a.toNat ≤ b.toNat := by
  rw [Char.le_def, UInt32.le_def, BitVec.le_def]
  rfl

theorem toLower_ite (c : Char) :
    c.toLower = if c.toNat ≥ 65 ∧ c.toNat ≤ 90 then Char.ofNat (c.toNat + 32) else c := by
  unfold Char.toLower
  rfl

theorem toLower_not_upper (c : Char) : ('A' ≤ c.toLower && c.toLower ≤ 'Z') = false := by
  rw [toLower_ite]
  by_cases h : c.toNat ≥ 65 ∧ c.toNat ≤ 90
  · rw [if_pos h]
    have hv : Nat.isValidChar (c.toNat + 32) := Or.inl (by omega)
    have ht : (Char.ofNat (c.toNat + 32)).toNat = c.toNat + 32 := toNat_ofNat_valid _ hv
    have hz : ¬ (Char.ofNat (c.toNat + 32) ≤ 'Z') := by
      rw [char_le_iff_toNat_le, ht]
      show ¬ (c.toNat + 32 ≤ 90)
      omega
    simp [hz]
  · rw [if_neg h]
    by_cases ha : 'A' ≤ c
    · by_cases hz : c ≤ 'Z'
      · exfalso
        apply h
        rw [char_le_iff_toNat_le] at ha hz
        exact ⟨ha, hz⟩
      · simp [hz]
    · simp [ha]

theorem toLower_eq_self {c : Char} (h : ('A' ≤ c && c ≤ 'Z') = false) :
    c.toLower = c := by
  rw [toLower_ite, if_neg]
  intro hc
  have htrue : ('A' ≤ c && c ≤ 'Z') = true := by
    simp only [Bool.and_eq_true, decide_eq_true_eq]
    constructor
    · rw [char_le_iff_toNat_le]
      exact hc.1
    · rw [char_le_iff_toNat_le]
      exact hc.2
  rw [h] at htrue
  exact Bool.false_ne_true htrue

theorem stripProtocol_subset (s : JsStr) : stripProtocol s ⊆ s := by
  unfold stripProtocol
  split
  · exact List.drop_subset _ _
  · split
    · exact List.drop_subset _ _
    · exact fun c h => h

theorem stripWww_subset (s : JsStr) : stripWww s ⊆ s := by
  unfold stripWww
  split
  · exact List.drop_subset _ _
  · exact fun c h => h

theorem stripTrailingSlash_subset (s : JsStr) : stripTrailingSlash s ⊆ s := by
  unfold stripTrailingSlash
  split
  · exact List.dropLast_subset _
  · exact fun c h => h

theorem jsTrim_subset (s : JsStr) : jsTrim s ⊆ s := by
  intro c hc
  unfold jsTrim at hc
  rw [List.mem_reverse] at hc
  have h2 := (List.dropWhile_sublist _).subset hc
  rw [List.mem_reverse] at h2
  exact (List.dropWhile_sublist _).subset h2

theorem normalForm_subset (d : JsStr) : normalForm d ⊆ jsToLowerCase d := by
  intro c hc
  unfold normalForm at hc
  exact stripProtocol_subset _ (stripWww_subset _ (stripTrailingSlash_subset _
    (jsTrim_subset _ hc)))

theorem normalForm_no_upper (d : JsStr) :
    ∀ c ∈ normalForm d, ('A' ≤ c && c ≤ 'Z') = false := by
  intro c hc
  obtain ⟨x, _, rfl⟩ := List.mem_map.mp (normalForm_subset d hc)
  exact toLower_not_upper x

theorem mem_dropLast_or_eq_getLast {α : Type} {l : List α} {x : α} (h : l ≠ [])
    (hx : x ∈ l) : x ∈ l.dropLast ∨ x = l.getLast h := by
  conv at hx => rw [← List.dropLast_append_getLast h]
  rcases List.mem_append.mp hx with hx | hx
  · exact Or.inl hx
  · exact Or.inr (List.mem_singleton.mp hx)

theorem isLabelChar_of_isAsciiAlnum {c : Char} (h : isAsciiAlnum c = true) :
    isLabelChar c = true := by
  unfold isLabelChar
  rw [h]
  rfl

theorem innerLabelOk_chars {l : JsStr} (h : innerLabelOk l = true) :
    ∀ c ∈ l, isLabelChar c = true := by
  intro c hc
  cases l with
  | nil => simp at hc
  | cons a rest =>
    simp only [innerLabelOk, Bool.and_eq_true, Bool.or_eq_true] at h
    rcases List.mem_cons.mp hc with rfl | hc
    · exact isLabelChar_of_isAsciiAlnum h.1
    · have hne : rest ≠ [] := List.ne_nil_of_mem hc
      rcases h.2 with he | h2
      · rw [List.isEmpty_iff] at he
        exact absurd he hne
      · rcases mem_dropLast_or_eq_getLast hne hc with hc | hc
        · exact (List.all_eq_true.mp h2.1.2) c hc
        · subst hc
          apply isLabelChar_of_isAsciiAlnum
          have := h2.2
          rwa [List.getLast?_eq_getLast _ hne] at this

theorem lastLabelOk_chars {l : JsStr} (h : lastLabelOk l = true) :
    ∀ c ∈ l, isLabelChar c = true := by
  intro c hc
  cases l with
  | nil => simp at hc
  | cons a rest =>
    simp only [lastLabelOk, Bool.and_eq_true] at h
    rcases List.mem_cons.mp hc with rfl | hc
    · exact isLabelChar_of_isAsciiAlnum h.1.1.1.1
    · have hne : rest ≠ [] := List.ne_nil_of_mem hc
      rcases mem_dropLast_or_eq_getLast hne hc with hc | hc
      · exact (List.all_eq_true.mp h.1.2) c hc
      · subst hc
        apply isLabelChar_of_isAsciiAlnum
        have := h.2
        rwa [List.getLast?_eq_getLast _ hne] at this

theorem mem_splitOnDot_of_mem {s : JsStr} {c : Char} (hc : c ∈ s) :
    c = '.' ∨ ∃ p ∈ splitOnDot s, c ∈ p := by
  induction s with
  | nil => simp at hc
  | cons a cs ih =>
    cases hsp : splitOnDot cs with
    | nil => exact absurd hsp (splitOnDot_ne_nil cs)
    | cons p ps =>
      rw [hsp] at ih
      by_cases ha : a = '.'
      · rcases List.mem_cons.mp hc with rfl | hc
        · exact Or.inl ha
        · rcases ih hc with h | ⟨q, hq, hcq⟩
          · exact Or.inl h
          · refine Or.inr ⟨q, ?_, hcq⟩
            simp [splitOnDot, hsp, ha, hq]
      · simp only [splitOnDot, hsp, if_neg ha]
        rcases List.mem_cons.mp hc with rfl | hc
        · exact Or.inr ⟨c :: p, by simp, by simp⟩
        · rcases ih hc with h | ⟨q, hq, hcq⟩
          · exact Or.inl h
          · rcases List.mem_cons.mp hq with rfl | hq
            · exact Or.inr ⟨a :: q, by simp, by simp [hcq]⟩
            · exact Or.inr ⟨q, by simp [hq], hcq⟩

/-- Every character of a string the validator accepts is a label character
or a dot. -/
theorem validShape_chars {s : JsStr} (h : validShape s = true) :
    ∀ c ∈ s, isLabelChar c = true ∨ c = '.' := by
  intro c hc
  unfold validShape at h
  rw [Bool.or_eq_true, Bool.or_eq_true] at h
  rcases h with (h | h) | h
  · rw [beq_iff_eq] at h
    subst h
    left
    have hall : ∀ x ∈ ("localhost").data, isLabelChar x = true := by decide
    exact hall c hc
  · left
    unfold singleLabelOk at h
    rw [Bool.and_eq_true] at h
    have hld := (List.all_eq_true.mp h.2) c hc
    simp only [isLowerDigitDash, Bool.or_eq_true] at hld
    simp only [isLabelChar, isAsciiAlnum, Bool.or_eq_true]
    rcases hld with (h1 | h1) | h1
    · exact Or.inl (Or.inl (Or.inl h1))
    · exact Or.inl (Or.inr h1)
    · exact Or.inr h1
  · rcases mem_splitOnDot_of_mem hc with rfl | ⟨p, hp, hcp⟩
    · exact Or.inr rfl
    · left
      unfold domainPatternOk at h
      simp only [Bool.and_eq_true] at h
      have hne : splitOnDot s ≠ [] := splitOnDot_ne_nil s
      rcases mem_dropLast_or_eq_getLast hne hp with hp | hp
      · exact innerLabelOk_chars ((List.all_eq_true.mp h.1.2) p hp) c hcp
      · subst hp
        have := h.2
        rw [List.getLast?_eq_getLast _ hne] at this
        exact lastLabelOk_chars this c hcp

theorem isPrefixOf_mem {p s : JsStr} (h : p.isPrefixOf s = true) :
    ∀ c ∈ p, c ∈ s :=
  fun _ hc => (List.isPrefixOf_iff_prefix.mp h).subset hc

theorem colon_not_mem_of_validShape {s : JsStr} (h : validShape s = true) :
    ':' ∉ s := by
  intro hm
  rcases validShape_chars h ':' hm with h1 | h1 <;> exact absurd h1 (by decide)

theorem slash_not_mem_of_validShape {s : JsStr} (h : validShape s = true) :
    '/' ∉ s := by
  intro hm
  rcases validShape_chars h '/' hm with h1 | h1 <;> exact absurd h1 (by decide)

theorem not_whitespace_of_labelChar {c : Char}
    (h : isLabelChar c = true ∨ c = '.') : isJsWhitespace c = false := by
  cases hw : isJsWhitespace c
  · rfl
  · exfalso
    simp only [isJsWhitespace, Bool.or_eq_true, decide_eq_true_eq] at hw
    rcases hw with ((((hw | hw) | hw) | hw) | hw) | hw <;> subst hw <;>
      rcases h with h | h <;> exact absurd h (by decide)

theorem stripProtocol_eq_self {s : JsStr} (h : ':' ∉ s) : stripProtocol s = s := by
  have h1 : ¬ ((("https://").data).isPrefixOf s = true) :=
    fun hp => h (isPrefixOf_mem hp ':' (by decide))
  have h2 : ¬ ((("http://").data).isPrefixOf s = true) :=
    fun hp => h (isPrefixOf_mem hp ':' (by decide))
  unfold stripProtocol
  rw [if_neg h1, if_neg h2]

theorem stripWww_eq_self {s : JsStr} (h : (("www.").data).isPrefixOf s = false) :
    stripWww s = s := by
  unfold stripWww
  rw [if_neg]
  intro hp
  rw [h] at hp
  exact Bool.false_ne_true hp

theorem stripTrailingSlash_eq_self {s : JsStr} (h : '/' ∉ s) :
    stripTrailingSlash s = s := by
  unfold stripTrailingSlash
  rw [if_neg]
  intro hl
  obtain ⟨ys, hys⟩ := List.getLast?_eq_some_iff.mp hl
  exact h (by rw [hys]; simp)

theorem dropWhile_eq_self_of_all {f : Char → Bool} {s : JsStr}
    (h : ∀ c ∈ s, f c = false) : s.dropWhile f = s := by
  cases s with
  | nil => rfl
  | cons c cs =>
    rw [List.dropWhile_cons, if_neg]
    intro hfc
    have hfalse := h c (by simp)
    rw [hfalse] at hfc
    exact Bool.false_ne_true hfc

theorem jsTrim_eq_self {s : JsStr} (h : ∀ c ∈ s, isJsWhitespace c = false) :
    jsTrim s = s := by
  unfold jsTrim
  rw [dropWhile_eq_self_of_all h]
  rw [dropWhile_eq_self_of_all (fun c hc => h c (List.mem_reverse.mp hc))]
  exact List.reverse_reverse s

theorem jsToLowerCase_eq_self {s : JsStr}
    (h : ∀ c ∈ s, ('A' ≤ c && c ≤ 'Z') = false) : jsToLowerCase s = s := by
  unfold jsToLowerCase
  induction s with
  | nil => rfl
  | cons c cs ih =>
    simp only [List.map_cons]
    rw [toLower_eq_self (h c (by simp)), ih (fun x hx => h x (by simp [hx]))]

/-- A string that already passed validation, contains no upper-case ASCII
letter and does not start with `www.` is a fixed point of the whole
normalization pipeline. -/
theorem normalForm_eq_self {r : JsStr} (hval : validShape r = true)
    (hnoup : ∀ c ∈ r, ('A' ≤ c && c ≤ 'Z') = false)
    (hwww : (("www.").data).isPrefixOf r = false) :
    normalForm r = r := by
  unfold normalForm
  rw [jsToLowerCase_eq_self hnoup]
  rw [stripProtocol_eq_self (colon_not_mem_of_validShape hval)]
  rw [stripWww_eq_self hwww]
  rw [stripTrailingSlash_eq_self (slash_not_mem_of_validShape hval)]
  exact jsTrim_eq_self
    (fun c hc => not_whitespace_of_labelChar (validShape_chars hval c hc))

theorem normalizeDomain_ok_inv {d r : JsStr} (h : normalizeDomain d = .ok r) :
    r = normalForm d ∧ validShape (normalForm d) = true := by
  rw [normalizeDomain_eq_ite] at h
  cases hv : validShape (normalForm d) with
  | true =>
    rw [if_pos hv] at h
    exact ⟨(Except.ok.injEq _ _ ▸ h).symm, rfl⟩
  | false =>
    rw [if_neg (by rw [hv]; exact Bool.false_ne_true)] at h
    exact absurd h (by simp)

/-- Stated from the spec's words, for comparison with the code: a single
DNS label, "letters/digits/hyphen only", nonempty. -/
def claimSingleLabelOk (s : JsStr) : Bool := !s.isEmpty && s.all isLabelChar

/-- Stated from the spec's words: one label of the dotted hostname grammar,
"1–63 chars, alphanumeric with internal hyphens, no leading/trailing
hyphen". -/
def claimLabelOk (l : JsStr) : Bool :=
  decide (1 ≤ l.length) && decide (l.length ≤ 63) && l.all isLabelChar &&
    (match l.head?, l.getLast? with
     | some a, some b => isAsciiAlnum a && isAsciiAlnum b
     | _, _ => false)

/-- Stated from the spec's words: a dotted multi-label hostname in which
every label (the final one included) satisfies `claimLabelOk`. -/
def claimDottedOk (s : JsStr) : Bool :=
  decide (2 ≤ (splitOnDot s).length) && (splitOnDot s).all claimLabelOk

/-- The claim's grammar for a string `normalizeDomain` accepts. -/
def claimGrammarOk (s : JsStr) : Bool := claimSingleLabelOk s || claimDottedOk s

/-- The amended dotted grammar: as the claim's, except that the final label
must be 2–63 characters long (the trailing `[a-z0-9]` of the regex's last
label is mandatory). -/
def amendedDottedOk (s : JsStr) : Bool :=
  decide (2 ≤ (splitOnDot s).length) &&
    (splitOnDot s).dropLast.all claimLabelOk &&
    (match (splitOnDot s).getLast? with
     | some l => claimLabelOk l && decide (2 ≤ l.length)
     | none => false)

/-- The amended grammar for a string `normalizeDomain` accepts. -/
def amendedGrammarOk (s : JsStr) : Bool :=
  claimSingleLabelOk s || amendedDottedOk s

theorem innerLabelOk_eq_claimLabelOk (l : JsStr) :
    innerLabelOk l = claimLabelOk l := by
  cases l with
  | nil => rfl
  | cons c rest =>
    rcases rest.eq_nil_or_concat with rfl | ⟨mid, d, rfl⟩
    · cases ha : isAsciiAlnum c
      · simp [innerLabelOk, claimLabelOk, ha]
      · simp [innerLabelOk, claimLabelOk, ha, isLabelChar_of_isAsciiAlnum ha]
    · rw [List.concat_eq_append]
      have hlast : (c :: (mid ++ [d])).getLast? = some d := by
        rw [← List.cons_append, List.getLast?_concat]
      have h62 : decide ((mid ++ [d]).length ≤ 62) = decide (mid.length + 1 ≤ 62) := by
        rw [decide_eq_decide]
        simp
      have h63 : decide ((c :: (mid ++ [d])).length ≤ 63) =
          decide (mid.length + 1 ≤ 62) := by
        rw [decide_eq_decide]
        simp
      have h1 : decide (1 ≤ (c :: (mid ++ [d])).length) = true :=
        decide_eq_true (by simp)
      cases ha : isAsciiAlnum c
      · simp [innerLabelOk, claimLabelOk, ha, hlast]
      · cases hd : isAsciiAlnum d
        · simp [innerLabelOk, claimLabelOk, ha, hd, hlast, List.getLast?_concat]
        · simp only [innerLabelOk, claimLabelOk, ha, hd, hlast, h62, h63, h1,
            List.getLast?_concat, List.dropLast_concat, List.head?_cons,
            List.all_cons, List.all_append, List.all_nil,
            isLabelChar_of_isAsciiAlnum ha, isLabelChar_of_isAsciiAlnum hd]
          simp

theorem lastLabelOk_eq_claim (l : JsStr) :
    lastLabelOk l = (claimLabelOk l && decide (2 ≤ l.length)) := by
  cases l with
  | nil => rfl
  | cons c rest =>
    rcases rest.eq_nil_or_concat with rfl | ⟨mid, d, rfl⟩
    · cases ha : isAsciiAlnum c <;> simp [lastLabelOk, claimLabelOk, ha]
    · rw [List.concat_eq_append]
      have hlast : (c :: (mid ++ [d])).getLast? = some d := by
        rw [← List.cons_append, List.getLast?_concat]
      have h62 : decide ((mid ++ [d]).length ≤ 62) =
          decide (mid.length + 1 ≤ 62) := by
        rw [decide_eq_decide]
        simp
      have h63 : decide ((c :: (mid ++ [d])).length ≤ 63) =
          decide (mid.length + 1 ≤ 62) := by
        rw [decide_eq_decide]
        simp
      have h1 : decide (1 ≤ (c :: (mid ++ [d])).length) = true :=
        decide_eq_true (by
          simp only [List.length_cons, List.length_append, List.length_nil]
          omega)
      have h2 : decide (2 ≤ (c :: (mid ++ [d])).length) = true :=
        decide_eq_true (by
          simp only [List.length_cons, List.length_append, List.length_nil]
          omega)
      cases ha : isAsciiAlnum c
      · simp [lastLabelOk, claimLabelOk, ha, hlast]
      · cases hd : isAsciiAlnum d
        · simp [lastLabelOk, claimLabelOk, ha, hd, hlast, List.getLast?_concat]
        · have hemp : (mid ++ [d]).isEmpty = false := by simp
          simp only [lastLabelOk, claimLabelOk, ha, hd, hlast, h62, h63, h1, h2,
            hemp, List.getLast?_concat, List.dropLast_concat, List.head?_cons,
            List.all_cons, List.all_append, List.all_nil,
            isLabelChar_of_isAsciiAlnum ha, isLabelChar_of_isAsciiAlnum hd]
          simp

theorem domainPatternOk_eq_amendedDottedOk (s : JsStr) :
    domainPatternOk s = amendedDottedOk s := by
  simp only [domainPatternOk, amendedDottedOk]
  have hfun : innerLabelOk = claimLabelOk := funext innerLabelOk_eq_claimLabelOk
  rw [hfun]
  cases hlast : (splitOnDot s).getLast? with
  | none => rfl
  | some l => simp only [lastLabelOk_eq_claim]

theorem all_congr_of_mem {α : Type} {f g : α → Bool} {l : List α}
    (h : ∀ x ∈ l, f x = g x) : l.all f = l.all g := by
  induction l with
  | nil => rfl
  | cons a as ih =>
    simp only [List.all_cons, h a (by simp),
      ih (fun x hx => h x (by simp [hx]))]

theorem isLowerDigitDash_eq_isLabelChar {c : Char}
    (h : ('A' ≤ c && c ≤ 'Z') = false) : isLowerDigitDash c = isLabelChar c := by
  unfold isLowerDigitDash isLabelChar isAsciiAlnum
  rw [h]
  simp only [Bool.or_false]

theorem singleLabelOk_eq_claim {s : JsStr}
    (h : ∀ c ∈ s, ('A' ≤ c && c ≤ 'Z') = false) :
    singleLabelOk s = claimSingleLabelOk s := by
  unfold singleLabelOk claimSingleLabelOk
  rw [all_congr_of_mem (fun c hc => isLowerDigitDash_eq_isLabelChar (h c hc))]

theorem validShape_eq_amendedGrammar {s : JsStr}
    (hnoup : ∀ c ∈ s, ('A' ≤ c && c ≤ 'Z') = false) :
    validShape s = amendedGrammarOk s := by
  unfold validShape amendedGrammarOk
  rw [← domainPatternOk_eq_amendedDottedOk]
  congr 1
  cases hl : s == ("localhost").data
  · rw [Bool.false_or]
    exact singleLabelOk_eq_claim hnoup
  · rw [beq_iff_eq] at hl
    subst hl
    rfl

/-- C2 (amended): `isSubdomain c p` returns true iff `c` split on `.` has
strictly more labels than `p` and the last `k` labels of `c` (where `k` is
the number of labels of `p`) equal the labels of `p` exactly, label-wise
rather than by substring suffix; `isSubdomain("api.example.com",
"example.com")` is true, `isSubdomain("evilcom.example.com",
"example.com")` is also true (it is a genuine label-wise subdomain), while
a plain string suffix such as `evilexample.com` is rejected. -/
theorem isSubdomain_labelwise :
    (∀ c p : JsStr,
        isSubdomain c p = true ↔
          ((splitOnDot p).length < (splitOnDot c).length ∧
            (splitOnDot c).drop
                ((splitOnDot c).length - (splitOnDot p).length) =
              splitOnDot p)) ∧
    isSubdomain (("api.example.com").data) (("example.com").data) = true ∧
    isSubdomain (("evilcom.example.com").data) (("example.com").data) = true ∧
    isSubdomain (("evilexample.com").data) (("example.com").data) = false := by
  refine ⟨fun c p => ?_, rfl, rfl, rfl⟩
  unfold isSubdomain
  by_cases hle : (splitOnDot c).length ≤ (splitOnDot p).length
  · rw [if_pos hle]
    constructor
    · intro h
      exact absurd h (by simp)
    · rintro ⟨h1, -⟩
      omega
  · rw [if_neg hle]
    have hlt : (splitOnDot p).length < (splitOnDot c).length :=
      Nat.lt_of_not_le hle
    rw [beq_iff_eq]
    constructor
    · intro hj
      refine ⟨hlt, ?_⟩
      have hsub : ∀ q ∈ (splitOnDot c).drop
          ((splitOnDot c).length - (splitOnDot p).length), '.' ∉ q :=
        fun q hq =>
          not_dot_mem_of_mem_splitOnDot c q (List.drop_subset _ _ hq)
      have hplen : 0 < (splitOnDot p).length :=
        List.length_pos.mpr (splitOnDot_ne_nil p)
      have hlenpos : 0 < ((splitOnDot c).drop
          ((splitOnDot c).length - (splitOnDot p).length)).length := by
        rw [List.length_drop]
        omega
      have hroundtrip := splitOnDot_joinDot _ (List.length_pos.mp hlenpos) hsub
      rw [hj] at hroundtrip
      exact hroundtrip.symm
    · rintro ⟨-, heq⟩
      rw [heq, joinDot_splitOnDot]

/-- C2 counterexample: the claim asserts that
`isSubdomain("evilcom.example.com", "example.com")` returns false; on the
code it returns true, and the claim's own label-wise characterization also
forces true — the last two labels of `evilcom.example.com` are exactly
`example.com`'s labels. -/
theorem isSubdomain_evilcom_counterexample :
    isSubdomain (("evilcom.example.com").data) (("example.com").data) = true ∧
    (splitOnDot (("evilcom.example.com").data)).drop 1 =
      splitOnDot (("example.com").data) :=
  ⟨rfl, rfl⟩

/-- C4 (amended): `normalizeDomain` lowercases, strips a leading
`http(s)://`, a leading `www.` and a trailing `/`, trims whitespace, and
then succeeds exactly on the strings that are a single DNS label
(letters/digits/hyphen) or a dotted multi-label hostname whose non-final
labels are 1–63 characters and whose final label is 2–63 characters, each
alphanumeric with internal hyphens and no leading or trailing hyphen; any
other input is rejected with an error carrying the original input in its
message; `normalizeDomain("HTTPS://WWW.Example.com/")` = `example.com`. -/
theorem normalizeDomain_grammar_spec :
    (∀ d : JsStr,
        normalizeDomain d =
          if amendedGrammarOk (normalForm d) then .ok (normalForm d)
          else .error (invalidDomainMessage d)) ∧
    (∀ d : JsStr, d <:+: invalidDomainMessage d) ∧
    normalizeDomain (("HTTPS://WWW.Example.com/").data) =
      .ok (("example.com").data) := by
  refine ⟨fun d => ?_, fun d => ?_, by rfl⟩
  · rw [normalizeDomain_eq_ite,
      validShape_eq_amendedGrammar (normalForm_no_upper d)]
  · exact ⟨("Invalid domain format: \"").data,
      ("\". Please enter a valid domain (e.g., example.com)").data, rfl⟩

/-- C4 counterexample: `a.b` lies in the claim's grammar (two labels, each
one character, so each within the claim's 1–63 bound), it is already in
normal form, yet the code rejects it: the final label of the regex needs
at least two characters. -/
theorem normalizeDomain_claim_counterexample :
    claimGrammarOk (("a.b").data) = true ∧
    normalForm (("a.b").data) = ("a.b").data ∧
    normalizeDomain (("a.b").data) =
      .error (invalidDomainMessage (("a.b").data)) :=
  ⟨rfl, rfl, rfl⟩

/-- C5 (amended): `normalizeDomain` is idempotent on every valid input
whose normalized form does not itself begin with `www.` — for such inputs,
normalizing the result succeeds and returns it unchanged. -/
theorem normalizeDomain_idempotent_nonwww (x r : JsStr)
    (hx : normalizeDomain x = .ok r)
    (hwww : (("www.").data).isPrefixOf r = false) :
    normalizeDomain r = .ok r := by
  obtain ⟨heq, hval⟩ := normalizeDomain_ok_inv hx
  subst heq
  have hfix : normalForm (normalForm x) = normalForm x :=
    normalForm_eq_self hval (normalForm_no_upper x) hwww
  rw [normalizeDomain_eq_ite, hfix, if_pos hval]

theorem normalizeDomain_idempotent_nonwww_witness :
    normalizeDomain (("example.com").data) = .ok (("example.com").data) :=
  normalizeDomain_idempotent_nonwww (("HTTPS://WWW.Example.com/").data)
    (("example.com").data) (by rfl) (by rfl)

/-- C5 counterexample: `www.www.example.com` is valid — normalization
strips only one `www.` and accepts `www.example.com` — but normalizing the
result strips another `www.`, so `normalize(normalize(x)) ≠ normalize(x)`
for this valid `x`. -/
theorem normalizeDomain_idempotent_counterexample :
    normalizeDomain (("www.www.example.com").data) =
      .ok (("www.example.com").data) ∧
    normalizeDomain (("www.example.com").data) =
      .ok (("example.com").data) ∧
    ("example.com").data ≠ ("www.example.com").data :=
  ⟨rfl, rfl, by decide⟩

/-- C3: the whitelist decision returns true exactly when the stored
whitelist is empty, or the normalized current hostname equals some entry
exactly, or it is a genuine subdomain (per `isSubdomain`) of some entry;
with whitelist `["example.com"]`, `shop.example.com` is whitelisted and
`evilexample.com` is not. -/
theorem isCurrentDomainWhitelisted_spec :
    (∀ (wl : List JsStr) (host : JsStr),
        isCurrentDomainWhitelisted wl host = .ok true ↔
          (wl = [] ∨ ∃ cur, normalizeDomain host = .ok cur ∧
            ∃ d ∈ wl, cur = d ∨ isSubdomain cur d = true)) ∧
    isCurrentDomainWhitelisted [("example.com").data]
      (("shop.example.com").data) = .ok true ∧
    isCurrentDomainWhitelisted [("example.com").data]
      (("evilexample.com").data) = .ok false := by
  refine ⟨fun wl host => ?_, rfl, rfl⟩
  unfold isCurrentDomainWhitelisted
  by_cases hwl : wl.length = 0
  · rw [if_pos hwl]
    simp [List.length_eq_zero.mp hwl]
  · rw [if_neg hwl]
    have hne : wl ≠ [] := fun h => hwl (by simp [h])
    cases hn : normalizeDomain host with
    | error e =>
      constructor
      · intro h
        exact absurd h (by simp)
      · rintro (rfl | ⟨cur, hcur, -⟩)
        · exact absurd rfl hne
        · exact absurd hcur (by simp)
    | ok cur =>
      show Except.ok (wl.any fun domain =>
        cur == domain || isSubdomain cur domain) = Except.ok true ↔ _
      constructor
      · intro h
        right
        refine ⟨cur, rfl, ?_⟩
        have hany : (wl.any fun domain =>
            cur == domain || isSubdomain cur domain) = true := by
          injection h
        obtain ⟨d, hd, hdp⟩ := List.any_eq_true.mp hany
        rw [Bool.or_eq_true] at hdp
        rcases hdp with hdp | hdp
        · exact ⟨d, hd, Or.inl (beq_iff_eq.mp hdp)⟩
        · exact ⟨d, hd, Or.inr hdp⟩
      · rintro (rfl | ⟨cur2, hcur2, d, hd, hdp⟩)
        · exact absurd rfl hne
        · injection hcur2 with hc
          subst hc
          congr 1
          apply List.any_eq_true.mpr
          refine ⟨d, hd, ?_⟩
          rw [Bool.or_eq_true]
          rcases hdp with rfl | hdp
          · exact Or.inl (beq_iff_eq.mpr rfl)
          · exact Or.inr hdp

/-- C6: `addDomainToWhitelist` normalizes (propagating the invalid-format
error), appends only when absent, and returns the updated list; it is
idempotent — adding twice yields a list holding the normalized domain
exactly once (length 1 from empty) — and it preserves freedom from
duplicates. -/
theorem addDomainToWhitelist_spec :
    (∀ (wl : List JsStr) (d e : JsStr), normalizeDomain d = .error e →
        addDomainToWhitelist wl d = .error e) ∧
    (∀ (wl : List JsStr) (d nd : JsStr), normalizeDomain d = .ok nd →
        addDomainToWhitelist wl d =
          .ok (if wl.contains nd then wl else wl ++ [nd])) ∧
    (∀ (wl l : List JsStr) (d : JsStr), addDomainToWhitelist wl d = .ok l →
        addDomainToWhitelist l d = .ok l) ∧
    (∀ (d nd : JsStr), normalizeDomain d = .ok nd →
        addDomainToWhitelist [] d = .ok [nd] ∧ [nd].length = 1 ∧
          [nd].count nd = 1) ∧
    (∀ (wl l : List JsStr) (d : JsStr), wl.Nodup →
        addDomainToWhitelist wl d = .ok l → l.Nodup) := by
  have hstep : ∀ (wl : List JsStr) (d nd : JsStr), normalizeDomain d = .ok nd →
      addDomainToWhitelist wl d =
        .ok (if wl.contains nd then wl else wl ++ [nd]) := by
    intro wl d nd h
    simp only [addDomainToWhitelist, h]
    by_cases hc : wl.contains nd
    · rw [if_pos hc, if_pos hc]
    · rw [if_neg hc, if_neg hc]
  refine ⟨?_, hstep, ?_, ?_, ?_⟩
  · intro wl d e h
    simp only [addDomainToWhitelist, h]
  · intro wl l d h
    cases hn : normalizeDomain d with
    | error e =>
      simp only [addDomainToWhitelist, hn] at h
      exact absurd h (by simp)
    | ok nd =>
      rw [hstep wl d nd hn] at h
      injection h with hl
      have hmem : nd ∈ l := by
        subst hl
        by_cases hc : wl.contains nd
        · rw [if_pos hc]
          exact List.mem_of_elem_eq_true hc
        · rw [if_neg hc]
          simp
      rw [hstep l d nd hn, if_pos (List.elem_eq_true_of_mem hmem)]
  · intro d nd h
    refine ⟨?_, rfl, by simp⟩
    rw [hstep [] d nd h]
    rfl
  · intro wl l d hnd h
    cases hn : normalizeDomain d with
    | error e =>
      simp only [addDomainToWhitelist, hn] at h
      exact absurd h (by simp)
    | ok nd =>
      rw [hstep wl d nd hn] at h
      injection h with hl
      subst hl
      by_cases hc : wl.contains nd
      · rw [if_pos hc]
        exact hnd
      · rw [if_neg hc]
        rw [← List.concat_eq_append]
        exact List.Nodup.concat (fun hm => hc (List.elem_eq_true_of_mem hm)) hnd

end StorageManager

/-- A cookie as the content scripts see it: only `name` and `value` are ever
inspected on that side. -/
structure Cookie where
  name : String
  value : String
deriving DecidableEq

/-- A message a content script sends to the background worker: a `type`
plus the fields the individual request kinds carry (`none` models an
absent field). -/
structure Message where
  type : String
  url : String
  name : Option String
  value : Option String
deriving DecidableEq

namespace CookieManager

def GET_COOKIE : String := "GET_COOKIE"

def SET_COOKIE : String := "SET_COOKIE"

def GET_ALL_COOKIES : String := "GET_ALL_COOKIES"

/-- `Object.values(DEVICE_TYPES)`: the three known device identities. -/
def deviceTypeValues : List String := ["desktop", "mobile", "app"]

def MESSAGE_TIMEOUT_MS : Nat := 5000

/-- The response object the background worker passes to the message
callback, as the content side reads it: `success`, an optional `error`
string, and the optional payload fields (`cookie` may itself be absent or
null — both read identically through `?.`). -/
structure BgResponse where
  success : Bool
  error : Option String
  cookie : Option Cookie
  cookies : Option (List Cookie)
deriving DecidableEq

/-- What one `chrome.runtime.sendMessage` exchange can come back with: the
timer fires first, the runtime reports a transport error, the callback
receives a falsy response, or it receives a response object. -/
inductive ChannelOutcome where
  | timedOut
  | runtimeError (msg : String)
  | noResponse
  | response (r : BgResponse)
deriving DecidableEq

/-- JavaScript `a || b` on an optional string where the empty string is
falsy. -/
def jsOrStr (a : Option String) (b : String) : String :=
  match a with
  | some s => if s = "" then b else s
  | none => b

/-- JavaScript `a?.value || b` chains: an absent operand and an
empty-string operand both fall through. -/
def jsOrOpt (a b : Option String) : Option String :=
  match a with
  | some s => if s = "" then b else some s
  | none => b

/-- `sendMessageToBackground`: resolves with the response when one arrives
and indicates success, rejects on timeout, runtime error, missing
response, or a `success: false` response (with `response.error ||` a
generic message). -/
def sendMessageToBackground (message : Message) (timeoutMs : Nat)
    (out : ChannelOutcome) : Except String BgResponse :=
  match out with
  | .timedOut =>
    .error ("Timeout waiting for response to " ++ message.type ++ " after "
      ++ toString timeoutMs ++ "ms")
  | .runtimeError m => .error ("Chrome runtime error: " ++ m)
  | .noResponse => .error "No response received from background script"
  | .response r =>
    if r.success then .ok r
    else .error (jsOrStr r.error ("Operation " ++ message.type ++ " failed"))

/-- `getCurrentDevice`: reads all cookies for the current URL through the
proxy, prefers the `deviceoutput` cookie's value, falls back to
`devicetype`, validates the result against the known device types, and
returns `null` on any failure (the `catch` returns `null`). -/
def getCurrentDevice (url : String) (out : ChannelOutcome) : Option String :=
  match sendMessageToBackground ⟨GET_ALL_COOKIES, url, none, none⟩
      MESSAGE_TIMEOUT_MS out with
  | .error _ => none
  | .ok response =>
    match response.cookies with
    | none => none
    | some cookies =>
      let deviceOutputCookie := cookies.find? fun c => c.name == "deviceoutput"
      let deviceTypeCookie := cookies.find? fun c => c.name == "devicetype"
      match jsOrOpt (deviceOutputCookie.map Cookie.value)
          (jsOrOpt (deviceTypeCookie.map Cookie.value) none) with
      | some deviceValue =>
        if deviceTypeValues.contains deviceValue then some deviceValue
        else none
      | none => none

/-- `setDeviceType`: validates the device type, then performs the two
`SET_COOKIE` exchanges in order (`deviceoutput` first, then
`devicetype`); any rejection is re-thrown.  The second component is the
list of messages actually dispatched. -/
def setDeviceType (url deviceType : String) (out1 out2 : ChannelOutcome) :
    Except String Bool × List Message :=
  if !(deviceTypeValues.contains deviceType) then
    (.error ("Invalid device type: " ++ deviceType), [])
  else
    match sendMessageToBackground
        ⟨SET_COOKIE, url, some "deviceoutput", some deviceType⟩
        MESSAGE_TIMEOUT_MS out1 with
    | .error e => (.error e, [⟨SET_COOKIE, url, some "deviceoutput", some deviceType⟩])
    | .ok _ =>
      match sendMessageToBackground
          ⟨SET_COOKIE, url, some "devicetype", some deviceType⟩
          MESSAGE_TIMEOUT_MS out2 with
      | .error e =>
        (.error e, [⟨SET_COOKIE, url, some "deviceoutput", some deviceType⟩,
          ⟨SET_COOKIE, url, some "devicetype", some deviceType⟩])
      | .ok _ =>
        (.ok true, [⟨SET_COOKIE, url, some "deviceoutput", some deviceType⟩,
          ⟨SET_COOKIE, url, some "devicetype", some deviceType⟩])

/-- `getCookie`: reads one cookie through the proxy and returns
`response?.cookie?.value || null`; any rejection yields `null`. -/
def getCookie (url name : String) (out : ChannelOutcome) : Option String :=
  match sendMessageToBackground ⟨GET_COOKIE, url, some name, none⟩
      MESSAGE_TIMEOUT_MS out with
  | .error _ => none
  | .ok response =>
    match response.cookie with
    | none => none
    | some c => if c.value = "" then none else some c.value

end CookieManager

namespace Background

def GET_COOKIE : String := "GET_COOKIE"

def SET_COOKIE : String := "SET_COOKIE"

def GET_ALL_COOKIES : String := "GET_ALL_COOKIES"

/-- The pieces of a parsed `URL` object the worker reads: `origin`,
`protocol` and `hostname`. -/
structure URLParts where
  origin : String
  protocol : String
  hostname : String
deriving DecidableEq

/-- The details object passed to `chrome.cookies.set`, with the attributes
`setCookie` derives: domain from the URL's hostname, path `/`, `secure`
iff the protocol is `https:`, sameSite `lax`. -/
structure SetDetails where
  url : String
  name : String
  value : String
  domain : String
  path : String
  secure : Bool
  sameSite : String
deriving DecidableEq

/-- One call into the `chrome.cookies` store, recorded in order. -/
inductive CookieOp where
  | get (url name : String)
  | remove (url name : String)
  | set (details : SetDetails)
  | getAll (url : String)
deriving DecidableEq

/-- The `chrome.cookies` API the worker calls into, abstracted: any
behavior of the store is allowed, the theorems quantify over it. -/
structure CookiesApi where
  get : String → String → Option Cookie
  set : SetDetails → Cookie
  getAll : String → List Cookie

/-- An incoming request as the listener reads it. -/
structure Request where
  type : String
  url : String
  name : String
  value : String
deriving DecidableEq

/-- `sender.tab` as the listener reads it. -/
structure Tab where
  url : Option String
deriving DecidableEq

structure Sender where
  tab : Option Tab
deriving DecidableEq

/-- The response object passed to `sendResponse`: `success`, an optional
`error`, and one optional payload per request kind (`cookie` is doubly
optional — the field is present on a `GET_COOKIE` success but may hold
null when the store has no such cookie). -/
structure ProxyResponse where
  success : Bool
  error : Option String
  cookie : Option (Option Cookie)
  result : Option Cookie
  cookies : Option (List Cookie)
deriving DecidableEq

/-- The `chrome.runtime.onMessage` listener of the background worker: the
sender must carry a tab with a truthy URL, both the sender URL and the
request URL must parse, the two origins must match, and only then is the
requested cookie operation performed.  `parseURL` abstracts the `URL`
constructor (`none` models a parse exception).  Returns the response
passed to `sendResponse` and the ordered trace of cookie-store calls. -/
def handleMessage (parseURL : String → Option URLParts) (api : CookiesApi)
    (request : Request) (sender : Sender) : ProxyResponse × List CookieOp :=
  match sender.tab with
  | none => (⟨false, some "Invalid sender", none, none, none⟩, [])
  | some tab =>
    match tab.url with
    | none => (⟨false, some "Invalid sender", none, none, none⟩, [])
    | some tabUrl =>
      if tabUrl = "" then (⟨false, some "Invalid sender", none, none, none⟩, [])
      else
        match parseURL tabUrl, parseURL request.url with
        | some senderUrl, some requestUrl =>
          if senderUrl.origin ≠ requestUrl.origin then
            (⟨false, some "Origin mismatch", none, none, none⟩, [])
          else if request.type = GET_COOKIE then
            (⟨true, none, some (api.get request.url request.name), none, none⟩,
              [.get request.url request.name])
          else if request.type = SET_COOKIE then
            let details : SetDetails :=
              ⟨request.url, request.name, request.value, requestUrl.hostname,
                "/", requestUrl.protocol == "https:", "lax"⟩
            (⟨true, none, none, some (api.set details), none⟩,
              [.remove request.url request.name, .set details])
          else if request.type = GET_ALL_COOKIES then
            (⟨true, none, none, none, some (api.getAll request.url)⟩,
              [.getAll request.url])
          else
            (⟨false, some "Unknown message type", none, none, none⟩, [])
        | _, _ => (⟨false, some "Invalid URL format", none, none, none⟩, [])

end Background

/-- C1: for every incoming proxy request whose sender's tab URL has an
origin different from the origin of the request's target URL, the proxy
responds with success `false` and error `Origin mismatch`, and performs
zero cookie-store operations (no get, no remove, no set, no getAll),
regardless of the request type. -/
theorem origin_mismatch_rejected
    (parseURL : String → Option Background.URLParts)
    (api : Background.CookiesApi) (request : Background.Request)
    (sender : Background.Sender) (tab : Background.Tab) (tabUrl : String)
    (senderUrl requestUrl : Background.URLParts)
    (h1 : sender.tab = some tab) (h2 : tab.url = some tabUrl)
    (h3 : tabUrl ≠ "")
    (h4 : parseURL tabUrl = some senderUrl)
    (h5 : parseURL request.url = some requestUrl)
    (h6 : senderUrl.origin ≠ requestUrl.origin) :
    Background.handleMessage parseURL api request sender =
      (⟨false, some "Origin mismatch", none, none, none⟩, []) := by
  simp only [Background.handleMessage, h1, h2, h4, h5, if_neg h3, if_pos h6]

theorem origin_mismatch_rejected_witness :
    Background.handleMessage (fun s => some ⟨s, "https:", "host"⟩)
      ⟨fun _ _ => none, fun _ => ⟨"", ""⟩, fun _ => []⟩
      ⟨"SET_COOKIE", "https://b.example", "n", "v"⟩
      ⟨some ⟨some "https://a.example"⟩⟩ =
      (⟨false, some "Origin mismatch", none, none, none⟩, []) :=
  origin_mismatch_rejected _ _ _ _ _ _ _ _ rfl rfl (by decide) rfl rfl
    (by decide)

/-- C9: for every incoming proxy request whose type is none of
`GET_COOKIE`, `SET_COOKIE` or `GET_ALL_COOKIES` (sender valid, both URLs
parsing, origins matching), the proxy responds with success `false` and
error `Unknown message type` and performs no cookie-store operation. -/
theorem unknown_type_rejected
    (parseURL : String → Option Background.URLParts)
    (api : Background.CookiesApi) (request : Background.Request)
    (sender : Background.Sender) (tab : Background.Tab) (tabUrl : String)
    (senderUrl requestUrl : Background.URLParts)
    (h1 : sender.tab = some tab) (h2 : tab.url = some tabUrl)
    (h3 : tabUrl ≠ "")
    (h4 : parseURL tabUrl = some senderUrl)
    (h5 : parseURL request.url = some requestUrl)
    (h6 : senderUrl.origin = requestUrl.origin)
    (h7 : request.type ≠ Background.GET_COOKIE)
    (h8 : request.type ≠ Background.SET_COOKIE)
    (h9 : request.type ≠ Background.GET_ALL_COOKIES) :
    Background.handleMessage parseURL api request sender =
      (⟨false, some "Unknown message type", none, none, none⟩, []) := by
  simp only [Background.handleMessage, h1, h2, h4, h5, if_neg h3]
  rw [if_neg (fun hne => hne h6), if_neg h7, if_neg h8, if_neg h9]

theorem unknown_type_rejected_witness :
    Background.handleMessage (fun s => some ⟨s, "https:", "host"⟩)
      ⟨fun _ _ => none, fun _ => ⟨"", ""⟩, fun _ => []⟩
      ⟨"FROBNICATE", "https://a.example", "n", "v"⟩
      ⟨some ⟨some "https://a.example"⟩⟩ =
      (⟨false, some "Unknown message type", none, none, none⟩, []) :=
  unknown_type_rejected _ _ _ _ _ _ _ _ rfl rfl (by decide) rfl rfl rfl
    (by decide) (by decide) (by decide)

namespace CookieManager

theorem mem_deviceTypeValues {v : String}
    (h : deviceTypeValues.contains v = true) :
    v = "desktop" ∨ v = "mobile" ∨ v = "app" := by
  have hm : v ∈ deviceTypeValues := List.mem_of_elem_eq_true h
  simpa [deviceTypeValues] using hm

theorem ne_empty_of_deviceType {v : String}
    (h : deviceTypeValues.contains v = true) : v ≠ "" := by
  rcases mem_deviceTypeValues h with rfl | rfl | rfl <;> decide

end CookieManager

/-- C7: `getCurrentDevice` prefers the `deviceoutput` cookie and falls
back to `devicetype`, returns the decided value only when it is one of
desktop/mobile/app, treats a value outside these three as no identity set
(absent, not an error and not the literal string), and returns absent when
neither cookie is set. -/
theorem getCurrentDevice_spec :
    (∀ (url v : String) (out : CookieManager.ChannelOutcome),
        CookieManager.getCurrentDevice url out = some v →
          v = "desktop" ∨ v = "mobile" ∨ v = "app") ∧
    (∀ (url : String) (r : CookieManager.BgResponse) (cs : List Cookie)
        (c : Cookie),
        r.success = true → r.cookies = some cs →
        cs.find? (fun ck => ck.name == "deviceoutput") = some c →
        CookieManager.deviceTypeValues.contains c.value = true →
        CookieManager.getCurrentDevice url (.response r) = some c.value) ∧
    (∀ (url : String) (r : CookieManager.BgResponse) (cs : List Cookie)
        (c : Cookie),
        r.success = true → r.cookies = some cs →
        cs.find? (fun ck => ck.name == "deviceoutput") = none →
        cs.find? (fun ck => ck.name == "devicetype") = some c →
        CookieManager.deviceTypeValues.contains c.value = true →
        CookieManager.getCurrentDevice url (.response r) = some c.value) ∧
    (∀ (url : String) (r : CookieManager.BgResponse) (cs : List Cookie)
        (c : Cookie),
        r.success = true → r.cookies = some cs →
        cs.find? (fun ck => ck.name == "deviceoutput") = some c →
        CookieManager.deviceTypeValues.contains c.value = false →
        cs.find? (fun ck => ck.name == "devicetype") = none →
        CookieManager.getCurrentDevice url (.response r) = none) ∧
    (∀ (url : String) (r : CookieManager.BgResponse) (cs : List Cookie),
        r.success = true → r.cookies = some cs →
        cs.find? (fun ck => ck.name == "deviceoutput") = none →
        cs.find? (fun ck => ck.name == "devicetype") = none →
        CookieManager.getCurrentDevice url (.response r) = none) := by
  refine ⟨?_, ?_, ?_, ?_, ?_⟩
  · intro url v out h
    simp only [CookieManager.getCurrentDevice] at h
    cases hsend : CookieManager.sendMessageToBackground
        ⟨CookieManager.GET_ALL_COOKIES, url, none, none⟩
        CookieManager.MESSAGE_TIMEOUT_MS out with
    | error e => simp [hsend] at h
    | ok r =>
      simp only [hsend] at h
      cases hcs : r.cookies with
      | none => simp [hcs] at h
      | some cs =>
        simp only [hcs] at h
        cases hjo : CookieManager.jsOrOpt
            ((cs.find? fun ck => ck.name == "deviceoutput").map Cookie.value)
            (CookieManager.jsOrOpt
              ((cs.find? fun ck => ck.name == "devicetype").map Cookie.value)
              none) with
        | none => simp [hjo] at h
        | some dv =>
          simp only [hjo] at h
          cases hct : CookieManager.deviceTypeValues.contains dv with
          | false =>
            rw [if_neg (fun hc => Bool.false_ne_true (hct ▸ hc))] at h
            exact absurd h (by simp)
          | true =>
            rw [if_pos hct] at h
            injection h with hv
            subst hv
            exact CookieManager.mem_deviceTypeValues hct
  · intro url r cs c hs hcs hfind hct
    have hne : c.value ≠ "" := CookieManager.ne_empty_of_deviceType hct
    simp [CookieManager.getCurrentDevice,
      CookieManager.sendMessageToBackground, hs, hcs, hfind,
      CookieManager.jsOrOpt, hne, hct]
    exact List.mem_of_elem_eq_true hct
  · intro url r cs c hs hcs hfo hfind hct
    have hne : c.value ≠ "" := CookieManager.ne_empty_of_deviceType hct
    simp [CookieManager.getCurrentDevice,
      CookieManager.sendMessageToBackground, hs, hcs, hfo, hfind,
      CookieManager.jsOrOpt, hne, hct]
    exact List.mem_of_elem_eq_true hct
  · intro url r cs c hs hcs hfind hct hdt
    have hnm : ¬ (c.value ∈ CookieManager.deviceTypeValues) := by
      intro hm
      have helem : CookieManager.deviceTypeValues.contains c.value = true :=
        List.elem_eq_true_of_mem hm
      rw [helem] at hct
      exact Bool.false_ne_true hct.symm
    by_cases hne : c.value = ""
    · simp [CookieManager.getCurrentDevice,
        CookieManager.sendMessageToBackground, hs, hcs, hfind, hdt,
        CookieManager.jsOrOpt, hne]
    · simp [CookieManager.getCurrentDevice,
        CookieManager.sendMessageToBackground, hs, hcs, hfind, hdt,
        CookieManager.jsOrOpt, hne, hnm]
  · intro url r cs hs hcs hfo hdt
    simp [CookieManager.getCurrentDevice,
      CookieManager.sendMessageToBackground, hs, hcs, hfo, hdt,
      CookieManager.jsOrOpt]

/-- C8: for a known device type, `setDeviceType` dispatches the
`deviceoutput` write first and the `devicetype` write second, both
`SET_COOKIE` messages for the current URL carrying the identical value;
a failure of the first exchange propagates (and the second is never
dispatched), a failure of the second exchange — after the first has
succeeded — propagates as well, and only when both succeed does the call
return true. -/
theorem setDeviceType_spec :
    (∀ (url t : String) (out1 out2 : CookieManager.ChannelOutcome)
        (e : String),
        CookieManager.deviceTypeValues.contains t = true →
        CookieManager.sendMessageToBackground
            ⟨CookieManager.SET_COOKIE, url, some "deviceoutput", some t⟩
            CookieManager.MESSAGE_TIMEOUT_MS out1 = .error e →
        CookieManager.setDeviceType url t out1 out2 =
          (.error e,
            [⟨CookieManager.SET_COOKIE, url, some "deviceoutput", some t⟩])) ∧
    (∀ (url t : String) (out1 out2 : CookieManager.ChannelOutcome)
        (r1 : CookieManager.BgResponse) (e : String),
        CookieManager.deviceTypeValues.contains t = true →
        CookieManager.sendMessageToBackground
            ⟨CookieManager.SET_COOKIE, url, some "deviceoutput", some t⟩
            CookieManager.MESSAGE_TIMEOUT_MS out1 = .ok r1 →
        CookieManager.sendMessageToBackground
            ⟨CookieManager.SET_COOKIE, url, some "devicetype", some t⟩
            CookieManager.MESSAGE_TIMEOUT_MS out2 = .error e →
        CookieManager.setDeviceType url t out1 out2 =
          (.error e,
            [⟨CookieManager.SET_COOKIE, url, some "deviceoutput", some t⟩,
             ⟨CookieManager.SET_COOKIE, url, some "devicetype", some t⟩])) ∧
    (∀ (url t : String) (out1 out2 : CookieManager.ChannelOutcome)
        (r1 r2 : CookieManager.BgResponse),
        CookieManager.deviceTypeValues.contains t = true →
        CookieManager.sendMessageToBackground
            ⟨CookieManager.SET_COOKIE, url, some "deviceoutput", some t⟩
            CookieManager.MESSAGE_TIMEOUT_MS out1 = .ok r1 →
        CookieManager.sendMessageToBackground
            ⟨CookieManager.SET_COOKIE, url, some "devicetype", some t⟩
            CookieManager.MESSAGE_TIMEOUT_MS out2 = .ok r2 →
        CookieManager.setDeviceType url t out1 out2 =
          (.ok true,
            [⟨CookieManager.SET_COOKIE, url, some "deviceoutput", some t⟩,
             ⟨CookieManager.SET_COOKIE, url, some "devicetype", some t⟩])) ∧
    (∀ (url t : String) (out1 out2 : CookieManager.ChannelOutcome),
        CookieManager.deviceTypeValues.contains t = true →
        ∀ m ∈ (CookieManager.setDeviceType url t out1 out2).2,
          m.type = CookieManager.SET_COOKIE ∧ m.url = url ∧
            m.value = some t ∧
            (m.name = some "deviceoutput" ∨ m.name = some "devicetype")) := by
  have hstep1 : ∀ (url t : String) (out1 out2 : CookieManager.ChannelOutcome),
      CookieManager.deviceTypeValues.contains t = true →
      CookieManager.setDeviceType url t out1 out2 =
        (match CookieManager.sendMessageToBackground
            ⟨CookieManager.SET_COOKIE, url, some "deviceoutput", some t⟩
            CookieManager.MESSAGE_TIMEOUT_MS out1 with
        | .error e =>
          (.error e,
            [⟨CookieManager.SET_COOKIE, url, some "deviceoutput", some t⟩])
        | .ok _ =>
          match CookieManager.sendMessageToBackground
              ⟨CookieManager.SET_COOKIE, url, some "devicetype", some t⟩
              CookieManager.MESSAGE_TIMEOUT_MS out2 with
          | .error e =>
            (.error e,
              [⟨CookieManager.SET_COOKIE, url, some "deviceoutput", some t⟩,
               ⟨CookieManager.SET_COOKIE, url, some "devicetype", some t⟩])
          | .ok _ =>
            (.ok true,
              [⟨CookieManager.SET_COOKIE, url, some "deviceoutput", some t⟩,
               ⟨CookieManager.SET_COOKIE, url, some "devicetype", some t⟩])) := by
    intro url t out1 out2 hct
    unfold CookieManager.setDeviceType
    rw [if_neg]
    intro hb
    rw [hct] at hb
    simp at hb
  refine ⟨?_, ?_, ?_, ?_⟩
  · intro url t out1 out2 e hct h1
    rw [hstep1 url t out1 out2 hct, h1]
  · intro url t out1 out2 r1 e hct h1 h2
    rw [hstep1 url t out1 out2 hct, h1, h2]
  · intro url t out1 out2 r1 r2 hct h1 h2
    rw [hstep1 url t out1 out2 hct, h1, h2]
  · intro url t out1 out2 hct m hm
    rw [hstep1 url t out1 out2 hct] at hm
    cases hsend1 : CookieManager.sendMessageToBackground
        ⟨CookieManager.SET_COOKIE, url, some "deviceoutput", some t⟩
        CookieManager.MESSAGE_TIMEOUT_MS out1 with
    | error e =>
      simp only [hsend1] at hm
      rcases List.mem_singleton.mp hm with rfl
      exact ⟨rfl, rfl, rfl, Or.inl rfl⟩
    | ok r1 =>
      simp only [hsend1] at hm
      cases hsend2 : CookieManager.sendMessageToBackground
          ⟨CookieManager.SET_COOKIE, url, some "devicetype", some t⟩
          CookieManager.MESSAGE_TIMEOUT_MS out2 with
      | error e =>
        simp only [hsend2] at hm
        rcases List.mem_cons.mp hm with rfl | hm
        · exact ⟨rfl, rfl, rfl, Or.inl rfl⟩
        · rcases List.mem_singleton.mp hm with rfl
          exact ⟨rfl, rfl, rfl, Or.inr rfl⟩
      | ok r2 =>
        simp only [hsend2] at hm
        rcases List.mem_cons.mp hm with rfl | hm
        · exact ⟨rfl, rfl, rfl, Or.inl rfl⟩
        · rcases List.mem_singleton.mp hm with rfl
          exact ⟨rfl, rfl, rfl, Or.inr rfl⟩

/-- C10: `getCookie` and `getCurrentDevice` never throw — every messaging
or proxy failure (timeout, transport error, empty response, or a
`success: false` response) yields `none`; a cookie present with the empty
string as value is coerced to absent (`getCookie` returns `none` for it),
and `getCurrentDevice` falls through from an empty-valued `deviceoutput`
cookie to the `devicetype` cookie. -/
theorem cookie_reads_never_throw :
    (∀ (url name m : String),
        CookieManager.getCookie url name .timedOut = none ∧
        CookieManager.getCookie url name (.runtimeError m) = none ∧
        CookieManager.getCookie url name .noResponse = none) ∧
    (∀ (url name : String) (r : CookieManager.BgResponse),
        r.success = false →
        CookieManager.getCookie url name (.response r) = none) ∧
    (∀ (url m : String),
        CookieManager.getCurrentDevice url .timedOut = none ∧
        CookieManager.getCurrentDevice url (.runtimeError m) = none ∧
        CookieManager.getCurrentDevice url .noResponse = none) ∧
    (∀ (url : String) (r : CookieManager.BgResponse),
        r.success = false →
        CookieManager.getCurrentDevice url (.response r) = none) ∧
    (∀ (url name : String) (r : CookieManager.BgResponse) (c : Cookie),
        r.success = true → r.cookie = some c → c.value = "" →
        CookieManager.getCookie url name (.response r) = none) ∧
    (∀ (url : String) (r : CookieManager.BgResponse) (cs : List Cookie)
        (c0 c1 : Cookie),
        r.success = true → r.cookies = some cs →
        cs.find? (fun ck => ck.name == "deviceoutput") = some c0 →
        c0.value = "" →
        cs.find? (fun ck => ck.name == "devicetype") = some c1 →
        CookieManager.deviceTypeValues.contains c1.value = true →
        CookieManager.getCurrentDevice url (.response r) = some c1.value) := by
  refine ⟨?_, ?_, ?_, ?_, ?_, ?_⟩
  · intro url name m
    exact ⟨rfl, rfl, rfl⟩
  · intro url name r hs
    simp [CookieManager.getCookie, CookieManager.sendMessageToBackground, hs]
  · intro url m
    exact ⟨rfl, rfl, rfl⟩
  · intro url r hs
    simp [CookieManager.getCurrentDevice,
      CookieManager.sendMessageToBackground, hs]
  · intro url name r c hs hc hv
    simp [CookieManager.getCookie, CookieManager.sendMessageToBackground,
      hs, hc, hv]
  · intro url r cs c0 c1 hs hcs hf0 hv0 hf1 hct
    have hne : c1.value ≠ "" := CookieManager.ne_empty_of_deviceType hct
    simp [CookieManager.getCurrentDevice,
      CookieManager.sendMessageToBackground, hs, hcs, hf0, hv0, hf1,
      CookieManager.jsOrOpt, hne, hct]
    exact List.mem_of_elem_eq_true hct
